import Mathlib

/-!
Shallow embedding of the `gm` submodule CLI (src/main.rs) and proofs about its
display-name derivation and status-report rendering.

External collaborators (the git binary, the gix library) are modelled as inputs:
each fallible external call becomes an `Option` parameter; colorized terminal
output becomes lists of styled `Segment`s (one list per printed line).
-/

namespace Gm

/-- Embedding of Rust `str::rsplit_once(c)` on character lists: splits at the
last occurrence of `c`, returning (before, after), or `none` when absent. -/
def rsplitOnceList : List Char → Char → Option (List Char × List Char)
  | [], _ => none
  | x :: xs, c =>
    match rsplitOnceList xs c with
    | some (a, b) => some (x :: a, b)
    | none => if x = c then some ([], xs) else none

/-- Core of `format_name`: `name.rsplit_once('/').or(name.rsplit_once('\\'))`
keeps the part after the split when a split happens, else the whole input. -/
def format_name_list (l : List Char) : List Char :=
  match rsplitOnceList l '/' with
  | some (_, tail) => tail
  | none =>
    match rsplitOnceList l '\\' with
    | some (_, tail) => tail
    | none => l

/-- Embedding of `format_name` (src/main.rs lines 42-47). -/
def format_name (name : String) : String :=
  String.mk (format_name_list name.toList)

/-- Colors used by the program via the `colored` crate. -/
inductive Color
  | red
  | yellow
  | green
  | blue
deriving DecidableEq

/-- Terminal emphasis state of a piece of text. -/
structure Style where
  isBold : Bool
  isDimmed : Bool
  color : Option Color
deriving DecidableEq

/-- A styled piece of text, modelling the `colored` crate's colored strings. -/
structure Segment where
  text : String
  style : Style
deriving DecidableEq

def Segment.ofString (s : String) : Segment :=
  ⟨s, ⟨false, false, none⟩⟩

def Segment.bold (x : Segment) : Segment :=
  ⟨x.text, ⟨true, x.style.isDimmed, x.style.color⟩⟩

def Segment.dimmed (x : Segment) : Segment :=
  ⟨x.text, ⟨x.style.isBold, true, x.style.color⟩⟩

def Segment.colored (x : Segment) (c : Color) : Segment :=
  ⟨x.text, ⟨x.style.isBold, x.style.isDimmed, some c⟩⟩

def Segment.red (x : Segment) : Segment := x.colored Color.red

def Segment.yellow (x : Segment) : Segment := x.colored Color.yellow

def Segment.green (x : Segment) : Segment := x.colored Color.green

def Segment.blue (x : Segment) : Segment := x.colored Color.blue

/-- Unstyled text, as printed by a bare format-string piece. -/
def plainSeg (s : String) : Segment := Segment.ofString s

/-- The characters of a rendered line with all emphasis markers stripped. -/
def line_chars (line : List Segment) : List Char :=
  line.flatMap (fun seg => seg.text.toList)

/-- gix `EntryStatus` as matched by `display_change`; the payloads of
`Conflict`, `Change` and `NeedsUpdate` are ignored by the renderer and dropped. -/
inductive EntryStatus
  | Conflict
  | Change
  | IntentToAdd
  | NeedsUpdate
deriving DecidableEq

/-- gix `RewriteSource`, keeping only the source path field the renderer reads. -/
inductive RewriteSource
  | RewriteFromIndex (source_rela_path : String)
  | CopyFromDirectoryEntry (source_rela_path : String)
deriving DecidableEq

/-- gix status `Item`, keeping only the fields the renderer reads
(paths already decoded to strings, as by `to_str_lossy`). -/
inductive Item
  | Modification (rela_path : String) (status : EntryStatus)
  | DirectoryContents (rela_path : String)
  | Rewrite (source : RewriteSource) (dirwalk_rela_path : String)
deriving DecidableEq

/-- Embedding of `display_change` (src/main.rs lines 58-108): the list of lines
printed for one change entry (the function itself always returns `Ok(())`). -/
def display_change (change : Item) : List (List Segment) :=
  match change with
  | Item.Modification rela_path status =>
    match status with
    | EntryStatus.Conflict => [[plainSeg "    ", ((Segment.ofString rela_path).bold).red]]
    | EntryStatus.Change => [[plainSeg "    ", ((Segment.ofString rela_path).bold).yellow]]
    | EntryStatus.IntentToAdd => [[plainSeg "    ", ((Segment.ofString rela_path).bold).yellow]]
    | EntryStatus.NeedsUpdate => []
  | Item.DirectoryContents rela_path =>
    [[plainSeg "    ", (Segment.ofString rela_path).red]]
  | Item.Rewrite (RewriteSource.RewriteFromIndex sp) dp =>
    [[plainSeg "    ", (Segment.ofString sp).bold, plainSeg " -> ", (Segment.ofString dp).bold]]
  | Item.Rewrite (RewriteSource.CopyFromDirectoryEntry sp) dp =>
    [[plainSeg "    ", (Segment.ofString sp).bold, plainSeg " -> ", (Segment.ofString dp).bold]]

/-- A submodule as read from the gix library: name, worktree path, whether its
repository exists locally, the dirty query's answer, and its change list. -/
structure Submodule where
  name : String
  path : String
  repository_exists : Bool
  is_dirty : Option Bool
  changes : Option (List Item)
deriving DecidableEq

/-- Embedding of `display_name` (src/main.rs lines 49-56). -/
def display_name (s : Submodule) : Segment :=
  if s.repository_exists then ((Segment.ofString (format_name s.name)).blue).bold
  else (Segment.ofString (format_name s.name)).bold

/-- The classification word of the status line (src/main.rs lines 222-227). -/
def status_classification (s : Submodule) : Segment :=
  match s.is_dirty with
  | some true => ((Segment.ofString "dirty").yellow).bold
  | some false => ((Segment.ofString "clean").green).bold
  | none =>
    if s.repository_exists then (Segment.ofString "unknown").bold
    else ((Segment.ofString "uninitialized").dimmed).bold

/-- The per-submodule status line (src/main.rs lines 218-228). -/
def status_line (s : Submodule) : List Segment :=
  [display_name s, plainSeg " ", (Segment.ofString s.path).dimmed, plainSeg " ",
   status_classification s]

/-- The header line printed before a non-empty change list. -/
def changes_header : List Segment := [plainSeg "  changes:"]

/-- The lines printed for a submodule's change list (src/main.rs lines 229-237). -/
def changes_block (changes : Option (List Item)) : List (List Segment) :=
  match changes with
  | none => []
  | some cs =>
    (if cs.isEmpty then [] else [changes_header]) ++ cs.flatMap display_change

/-- All lines the status subcommand prints for one submodule. -/
def submodule_status_block (s : Submodule) : List (List Segment) :=
  status_line s :: changes_block s.changes

/-- Ordering used by `sorted_by(|a, b| a.name().cmp(b.name()))`. -/
def submoduleLE (a b : Submodule) : Prop := a.name ≤ b.name

instance : DecidableRel submoduleLE :=
  fun a b => inferInstanceAs (Decidable (a.name ≤ b.name))

instance : IsTotal Submodule submoduleLE :=
  ⟨fun a b => le_total a.name b.name⟩

instance : IsTrans Submodule submoduleLE :=
  ⟨fun _ _ _ h1 h2 => le_trans h1 h2⟩

/-- The stable sort by name applied to the submodule list before printing. -/
def sortSubmodules (l : List Submodule) : List Submodule :=
  l.insertionSort submoduleLE

/-- One line of `ls` output (src/main.rs lines 202-208). -/
def ls_line (s : Submodule) : List Segment :=
  [display_name s, plainSeg " ", (Segment.ofString s.path).dimmed]

/-- The `ls` subcommand's submodule listing (after a non-`None` enumeration). -/
def ls_output (subs : List Submodule) : List (List Segment) :=
  (sortSubmodules subs).map ls_line

/-- The status subcommand's output (after a non-`None` enumeration). -/
def status_output (subs : List Submodule) : List (List Segment) :=
  (sortSubmodules subs).flatMap submodule_status_block

/-- One line of the post-clone submodule listing (src/main.rs lines 161-169). -/
def clone_line (s : Submodule) : List Segment :=
  [(Segment.ofString "initialized").bold, plainSeg " ", display_name s, plainSeg " ",
   (Segment.ofString "at").bold, plainSeg " ", ((Segment.ofString s.path).dimmed).bold]

/-- The post-clone submodule listing. -/
def clone_list_output (subs : List Submodule) : List (List Segment) :=
  (sortSubmodules subs).map clone_line

/-- Exit status of a child process: `success()` and `code()`. -/
structure ExitStatus where
  success : Bool
  code : Option Int
deriving DecidableEq

/-- The parsed clone URL, keeping the fields the code reads: host and path. -/
structure Url where
  host : Option String
  path : String
deriving DecidableEq

/-- Helper for `trim_end_matches(".git")`: strips repetitions of `.git`
read backwards (`tig.`) from the front of a reversed character list. -/
def stripGitRev : List Char → List Char
  | 't' :: 'i' :: 'g' :: '.' :: rest => stripGitRev rest
  | l => l

/-- Embedding of `path.trim_end_matches(".git")`. -/
def trim_end_git (s : String) : String :=
  String.mk (stripGitRev s.toList.reverse).reverse

/-- Target-path inference of the clone subcommand (src/main.rs lines 139-153):
`none` means the code returns `Ok(())` without listing submodules. -/
def clone_repo_path (path : Option String) (u : Url) : Option String :=
  match path with
  | some p => some p
  | none =>
    if u.host = some "github.com" then
      match rsplitOnceList u.path.toList '/' with
      | none => none
      | some (_, p) => some (trim_end_git (String.mk p))
    else none

/-- Outcome of a full clone-subcommand run. -/
inductive CloneResult
  | errored
  | exited (code : Int)
  | ok (lines : List (List Segment))
deriving DecidableEq

/-- Embedding of the clone subcommand's control flow (src/main.rs lines 119-170).
`git`: result of `which("git")`; `wait`: result of spawning and waiting on the
clone process; `url`: result of URL parsing; `discovered`: result of repository
discovery plus submodule enumeration (`none` = a library error propagated,
`some none` = no submodule list). -/
def clone_run (git : Option String) (wait : Option ExitStatus) (url : Option Url)
    (path : Option String) (discovered : Option (Option (List Submodule))) : CloneResult :=
  match git with
  | none => CloneResult.errored
  | some _ =>
    match wait with
    | none => CloneResult.errored
    | some st =>
      if st.success then
        match url with
        | none => CloneResult.errored
        | some u =>
          match clone_repo_path path u with
          | none => CloneResult.ok []
          | some _ =>
            match discovered with
            | none => CloneResult.errored
            | some none => CloneResult.ok []
            | some (some subs) => CloneResult.ok (clone_list_output subs)
      else CloneResult.exited (st.code.getD 1)

/-- Outcome of a full init/rm-subcommand run: `okZero` is `Ok(())` from `main`,
which terminates the process with exit code 0. -/
inductive RunResult
  | errored
  | okZero
deriving DecidableEq

/-- Embedding of the init subcommand (src/main.rs lines 171-186): the child
exit statuses are bound by `wait()?` and then discarded. -/
def init_run (git : Option String) (r1 r2 : Option ExitStatus) : RunResult :=
  match git with
  | none => RunResult.errored
  | some _ =>
    match r1 with
    | none => RunResult.errored
    | some _ =>
      match r2 with
      | none => RunResult.errored
      | some _ => RunResult.okZero

/-- Embedding of the rm subcommand (src/main.rs lines 187-195). -/
def rm_run (git : Option String) (r : Option ExitStatus) : RunResult :=
  match git with
  | none => RunResult.errored
  | some _ =>
    match r with
    | none => RunResult.errored
    | some _ => RunResult.okZero

/-- The spec's reading of the display-name contract: `tail` is the substring of
`l` after the last separator of either kind (forward or backward slash). -/
def is_tail_after_last_separator (l tail : List Char) : Prop :=
  ∃ a s, (s = '/' ∨ s = '\\') ∧ l = a ++ s :: tail ∧ '/' ∉ tail ∧ '\\' ∉ tail

/-- Whether a change entry is the suppressed needs-update-only case. -/
def is_needs_update_only : Item → Bool
  | Item.Modification _ EntryStatus.NeedsUpdate => true
  | _ => false

end Gm

namespace Gm

theorem rsplitOnceList_eq_none (c : Char) :
    ∀ l : List Char, rsplitOnceList l c = none → c ∉ l := by
  intro l
  induction l with
  | nil => intro _ hm; exact List.not_mem_nil c hm
  | cons x xs ih =>
    intro h hm
    cases hx : rsplitOnceList xs c with
    | some p =>
      obtain ⟨a, b⟩ := p
      simp only [rsplitOnceList, hx] at h
      exact Option.noConfusion h
    | none =>
      simp only [rsplitOnceList, hx] at h
      by_cases hxc : x = c
      · simp [hxc] at h
      · rcases List.mem_cons.mp hm with h1 | h2
        · exact hxc h1.symm
        · exact ih hx h2

theorem rsplitOnceList_eq_some (c : Char) :
    ∀ (l a b : List Char), rsplitOnceList l c = some (a, b) → l = a ++ c :: b ∧ c ∉ b := by
  intro l
  induction l with
  | nil => intro a b h; simp [rsplitOnceList] at h
  | cons x xs ih =>
    intro a b h
    cases hx : rsplitOnceList xs c with
    | some p =>
      obtain ⟨a', b'⟩ := p
      simp only [rsplitOnceList, hx, Option.some.injEq, Prod.mk.injEq] at h
      obtain ⟨ha, hb⟩ := h
      subst ha
      subst hb
      obtain ⟨hxs, hnb⟩ := ih a' b' hx
      exact ⟨by rw [List.cons_append, ← hxs], hnb⟩
    | none =>
      simp only [rsplitOnceList, hx] at h
      by_cases hxc : x = c
      · rw [if_pos hxc] at h
        simp only [Option.some.injEq, Prod.mk.injEq] at h
        obtain ⟨ha, hb⟩ := h
        subst ha
        subst hb
        exact ⟨by simp [hxc], rsplitOnceList_eq_none c xs hx⟩
      · rw [if_neg hxc] at h
        exact Option.noConfusion h

theorem tail_after_last_unique (c : Char) :
    ∀ (a b m t : List Char), a ++ c :: b = m ++ c :: t → c ∉ b → c ∉ t → b = t := by
  intro a
  induction a with
  | nil =>
    intro b m t heq hb ht
    cases m with
    | nil => simpa using heq
    | cons y ms =>
      simp only [List.nil_append, List.cons_append, List.cons.injEq] at heq
      obtain ⟨hy, hb'⟩ := heq
      exact absurd (hb' ▸ List.mem_append.mpr (Or.inr (List.mem_cons_self c t))) hb
  | cons x as ih =>
    intro b m t heq hb ht
    cases m with
    | nil =>
      simp only [List.cons_append, List.nil_append, List.cons.injEq] at heq
      obtain ⟨hx, ht'⟩ := heq
      exact absurd (ht' ▸ List.mem_append.mpr (Or.inr (List.mem_cons_self c b))) ht
    | cons y ms =>
      simp only [List.cons_append, List.cons.injEq] at heq
      exact ih b ms t heq.2 hb ht

theorem string_eq_of_toList_eq {s t : String} (h : s.toList = t.toList) : s = t :=
  String.ext h

theorem format_name_toList (name : String) :
    (format_name name).toList = format_name_list name.toList := rfl

theorem format_name_list_spec (l : List Char) :
    (('/' ∈ l) →
      ∃ a, l = a ++ '/' :: format_name_list l ∧ '/' ∉ format_name_list l) ∧
    ('/' ∉ l → '\\' ∈ l →
      ∃ a, l = a ++ '\\' :: format_name_list l ∧ '\\' ∉ format_name_list l) ∧
    ('/' ∉ l → '\\' ∉ l → format_name_list l = l) := by
  cases h1 : rsplitOnceList l '/' with
  | some p =>
    obtain ⟨a, b⟩ := p
    obtain ⟨hl, hnb⟩ := rsplitOnceList_eq_some '/' l a b h1
    have hfn : format_name_list l = b := by simp [format_name_list, h1]
    have hmem : '/' ∈ l := by
      rw [hl]; exact List.mem_append.mpr (Or.inr (List.mem_cons_self _ _))
    refine ⟨fun _ => ⟨a, by rw [hfn]; exact ⟨hl, hnb⟩⟩,
      fun hns _ => absurd hmem hns, fun hns _ => absurd hmem hns⟩
  | none =>
    have hn1 := rsplitOnceList_eq_none '/' l h1
    cases h2 : rsplitOnceList l '\\' with
    | some p =>
      obtain ⟨a, b⟩ := p
      obtain ⟨hl, hnb⟩ := rsplitOnceList_eq_some '\\' l a b h2
      have hfn : format_name_list l = b := by simp [format_name_list, h1, h2]
      have hmem : '\\' ∈ l := by
        rw [hl]; exact List.mem_append.mpr (Or.inr (List.mem_cons_self _ _))
      refine ⟨fun hm => absurd hm hn1, fun _ _ => ⟨a, by rw [hfn]; exact ⟨hl, hnb⟩⟩,
        fun _ hns => absurd hmem hns⟩
    | none =>
      have hn2 := rsplitOnceList_eq_none '\\' l h2
      have hfn : format_name_list l = l := by simp [format_name_list, h1, h2]
      exact ⟨fun hm => absurd hm hn1, fun _ hm => absurd hm hn2, fun _ _ => hfn⟩

end Gm

namespace Gm

/-- C1 counterexample: on the name "a/b\c" the code returns "b\c", which is not
the substring after the last separator of either kind (that would be "c"),
so the claim as stated is false. -/
theorem format_name_not_after_last_separator :
    format_name "a/b\\c" = "b\\c" ∧
    ¬ is_tail_after_last_separator ("a/b\\c").toList ((format_name "a/b\\c").toList) := by
  refine ⟨by decide, ?_⟩
  rintro ⟨a, s, hs, heq, hslash, hback⟩
  exact hback (by decide)

/-- C1 (amended): `format_name` returns the substring after the last forward
slash when the name contains one; otherwise the substring after the last
backslash when the name contains one; otherwise the name unchanged. -/
theorem format_name_last_component (name : String) :
    (('/' ∈ name.toList) →
      ∃ a, name.toList = a ++ '/' :: (format_name name).toList ∧
        '/' ∉ (format_name name).toList) ∧
    ('/' ∉ name.toList → '\\' ∈ name.toList →
      ∃ a, name.toList = a ++ '\\' :: (format_name name).toList ∧
        '\\' ∉ (format_name name).toList) ∧
    ('/' ∉ name.toList → '\\' ∉ name.toList → format_name name = name) := by
  obtain ⟨h1, h2, h3⟩ := format_name_list_spec name.toList
  refine ⟨?_, ?_, ?_⟩
  · intro hm
    rw [format_name_toList]
    exact h1 hm
  · intro hn hm
    rw [format_name_toList]
    exact h2 hn hm
  · intro hn1 hn2
    apply string_eq_of_toList_eq
    rw [format_name_toList]
    exact h3 hn1 hn2

/-- Witness for the amended C1 theorem at the concrete name "libs/foo". -/
theorem format_name_last_component_witness :
    ∃ a, ("libs/foo").toList = a ++ '/' :: (format_name "libs/foo").toList ∧
      '/' ∉ (format_name "libs/foo").toList :=
  (format_name_last_component "libs/foo").1 (by decide)

/-- C2 counterexample: "a/b\" ends in a separator (a backslash) yet the code
returns "b\", not the empty string, so the universal part of the claim fails. -/
theorem format_name_trailing_backslash_cex :
    ("a/b\\").toList = ['a', '/', 'b'] ++ ['\\'] ∧
    format_name "a/b\\" = "b\\" ∧ format_name "a/b\\" ≠ "" := by
  refine ⟨by decide, by decide, by decide⟩

/-- C2 (amended): a name ending in a forward slash yields the empty string, a
name ending in a backslash and containing no forward slash yields the empty
string, and the listed examples hold. -/
theorem format_name_trailing_separator :
    (∀ (name : String) (m : List Char), name.toList = m ++ ['/'] → format_name name = "") ∧
    (∀ (name : String) (m : List Char),
      '/' ∉ name.toList → name.toList = m ++ ['\\'] → format_name name = "") ∧
    format_name "libs/foo" = "foo" ∧ format_name "vendor" = "vendor" ∧
    format_name "a/b/" = "" ∧ format_name "" = "" := by
  refine ⟨?_, ?_, by decide, by decide, by decide, by decide⟩
  · intro name m hm
    have hmem : '/' ∈ name.toList := by rw [hm]; simp
    obtain ⟨a, hl, hn⟩ := (format_name_list_spec name.toList).1 hmem
    have htail : format_name_list name.toList = [] := by
      apply tail_after_last_unique '/' a (format_name_list name.toList) m []
      · rw [← hl]; exact hm
      · exact hn
      · exact List.not_mem_nil '/'
    apply string_eq_of_toList_eq
    rw [format_name_toList, htail]
    rfl
  · intro name m hns hm
    have hmem : '\\' ∈ name.toList := by rw [hm]; simp
    obtain ⟨a, hl, hn⟩ := (format_name_list_spec name.toList).2.1 hns hmem
    have htail : format_name_list name.toList = [] := by
      apply tail_after_last_unique '\\' a (format_name_list name.toList) m []
      · rw [← hl]; exact hm
      · exact hn
      · exact List.not_mem_nil '\\'
    apply string_eq_of_toList_eq
    rw [format_name_toList, htail]
    rfl

/-- Witness for the amended C2 theorem at the concrete name "x\y\". -/
theorem format_name_trailing_separator_witness :
    format_name "x\\y\\" = "" :=
  format_name_trailing_separator.2.1 "x\\y\\" ['x', '\\', 'y'] (by decide) (by decide)

end Gm

namespace Gm

/-- C3: a change entry whose status is `NeedsUpdate` produces no output line
(and `display_change` has no error path in this case: it returns `Ok(())`). -/
theorem display_change_needs_update (rela_path : String) :
    display_change (Item.Modification rela_path EntryStatus.NeedsUpdate) = [] := rfl

/-- C4: both rewrite variants render the single indented line
"    <source> -> <destination>", source before destination, both sides bold. -/
theorem display_change_rewrite (s d : String) :
    display_change (Item.Rewrite (RewriteSource.RewriteFromIndex s) d) =
      [[plainSeg "    ", (Segment.ofString s).bold, plainSeg " -> ",
        (Segment.ofString d).bold]] ∧
    display_change (Item.Rewrite (RewriteSource.CopyFromDirectoryEntry s) d) =
      [[plainSeg "    ", (Segment.ofString s).bold, plainSeg " -> ",
        (Segment.ofString d).bold]] ∧
    line_chars [plainSeg "    ", (Segment.ofString s).bold, plainSeg " -> ",
        (Segment.ofString d).bold] =
      "    ".toList ++ s.toList ++ " -> ".toList ++ d.toList ∧
    ((Segment.ofString s).bold.style.isBold = true ∧
      (Segment.ofString d).bold.style.isBold = true) := by
  refine ⟨rfl, rfl, ?_, rfl, rfl⟩
  simp [line_chars, plainSeg, Segment.ofString, Segment.bold]

end Gm

namespace Gm

/-- C5: the status line is name, path, classification word (in that order, with
the path dimmed); the name is always bold and is blue exactly when the
submodule's repository exists; the classification word is "dirty"/"clean" for a
`some` dirty answer, "unknown" for no answer with an existing repository,
"uninitialized" for no answer without one; the four classification styles are
pairwise distinct. -/
theorem status_line_spec (s : Submodule) :
    (status_line s).map Segment.text =
      [format_name s.name, " ", s.path, " ", (status_classification s).text] ∧
    (status_line s).head? = some (display_name s) ∧
    (display_name s).style.isBold = true ∧
    ((display_name s).style.color = some Color.blue ↔ s.repository_exists = true) ∧
    (display_name s).text = format_name s.name ∧
    (s.is_dirty = some true →
      status_classification s = ((Segment.ofString "dirty").yellow).bold) ∧
    (s.is_dirty = some false →
      status_classification s = ((Segment.ofString "clean").green).bold) ∧
    (s.is_dirty = none → s.repository_exists = true →
      status_classification s = (Segment.ofString "unknown").bold) ∧
    (s.is_dirty = none → s.repository_exists = false →
      status_classification s = ((Segment.ofString "uninitialized").dimmed).bold) ∧
    List.Pairwise (fun a b => a ≠ b)
      [((Segment.ofString "dirty").yellow).bold.style,
       ((Segment.ofString "clean").green).bold.style,
       (Segment.ofString "unknown").bold.style,
       ((Segment.ofString "uninitialized").dimmed).bold.style] := by
  refine ⟨?_, rfl, ?_, ?_, ?_, ?_, ?_, ?_, ?_, by decide⟩
  · cases hex : s.repository_exists <;>
      simp [status_line, display_name, hex, plainSeg, Segment.ofString, Segment.bold,
        Segment.dimmed, Segment.blue, Segment.colored]
  · cases hex : s.repository_exists <;> simp [display_name, hex, Segment.bold]
  · cases hex : s.repository_exists <;>
      simp [display_name, hex, Segment.ofString, Segment.bold, Segment.blue, Segment.colored]
  · cases hex : s.repository_exists <;>
      simp [display_name, hex, Segment.ofString, Segment.bold, Segment.blue, Segment.colored]
  · intro h; simp [status_classification, h]
  · intro h; simp [status_classification, h]
  · intro h1 h2; simp [status_classification, h1, h2]
  · intro h1 h2; simp [status_classification, h1, h2]

/-- Witness for the C5 theorem at a concrete submodule. -/
theorem status_line_spec_witness :
    status_classification ⟨"n", "p", true, some true, none⟩ =
      ((Segment.ofString "dirty").yellow).bold :=
  (status_line_spec ⟨"n", "p", true, some true, none⟩).2.2.2.2.2.1 rfl

end Gm

namespace Gm

theorem display_change_head (c : Item) (line : List Segment)
    (h : line ∈ display_change c) : line.head? = some (plainSeg "    ") := by
  cases c with
  | Modification rp st =>
    cases st <;> simp [display_change] at h <;> subst h <;> rfl
  | DirectoryContents rp =>
    simp [display_change] at h
    subst h
    rfl
  | Rewrite src dp =>
    cases src <;> simp [display_change] at h <;> subst h <;> rfl

theorem changes_header_not_in_lines (cs : List Item) :
    changes_header ∉ cs.flatMap display_change := by
  intro hmem
  obtain ⟨c, _, hline⟩ := List.mem_flatMap.mp hmem
  exact absurd (display_change_head c changes_header hline) (by decide)

/-- C6: the header line "  changes:" appears in a submodule's change block
exactly when the change list is present and non-empty; in that case the block
is the header followed by the per-change lines; a needs-update-only entry
contributes no line and every other entry contributes exactly one. -/
theorem status_changes_header (changes : Option (List Item)) :
    (changes_header ∈ changes_block changes ↔ ∃ cs, changes = some cs ∧ cs ≠ []) ∧
    (∀ cs, changes = some cs → cs ≠ [] →
      changes_block changes = changes_header :: cs.flatMap display_change) ∧
    (∀ cs, changes = some cs → cs = [] → changes_block changes = []) ∧
    (changes = none → changes_block changes = []) ∧
    (∀ c, is_needs_update_only c = true → display_change c = []) ∧
    (∀ c, is_needs_update_only c = false → (display_change c).length = 1) := by
  refine ⟨⟨?_, ?_⟩, ?_, ?_, ?_, ?_, ?_⟩
  · intro hmem
    cases changes with
    | none => simp [changes_block] at hmem
    | some cs =>
      by_cases hcs : cs = []
      · subst hcs
        simp [changes_block] at hmem
      · exact ⟨cs, rfl, hcs⟩
  · rintro ⟨cs, rfl, hcs⟩
    cases cs with
    | nil => exact absurd rfl hcs
    | cons x xs =>
      simp [changes_block]
  · intro cs heq hcs
    subst heq
    cases cs with
    | nil => exact absurd rfl hcs
    | cons x xs => rfl
  · intro cs heq hnil
    subst heq
    subst hnil
    rfl
  · intro h
    subst h
    rfl
  · intro c h
    cases c with
    | Modification rp st =>
      cases st <;> first | rfl | simp [is_needs_update_only] at h
    | DirectoryContents rp => simp [is_needs_update_only] at h
    | Rewrite src dp => cases src <;> simp [is_needs_update_only] at h
  · intro c h
    cases c with
    | Modification rp st =>
      cases st <;> first | rfl | simp [is_needs_update_only] at h
    | DirectoryContents rp => rfl
    | Rewrite src dp => cases src <;> rfl

/-- Witness for the C6 theorem at a concrete one-entry change list. -/
theorem status_changes_header_witness :
    changes_block (some [Item.DirectoryContents "f"]) =
      changes_header :: ([Item.DirectoryContents "f"].flatMap display_change) :=
  (status_changes_header (some [Item.DirectoryContents "f"])).2.1
    [Item.DirectoryContents "f"] rfl (by decide)

end Gm

namespace Gm

/-- C7: all three listing subcommands print the submodules in ascending order
of name: each output maps over the same sorted list, which is a permutation of
the enumeration sorted so that names are pairwise non-decreasing. -/
theorem submodules_listed_sorted (subs : List Submodule) :
    List.Pairwise (fun a b => a.name ≤ b.name) (sortSubmodules subs) ∧
    List.Perm (sortSubmodules subs) subs ∧
    ls_output subs = (sortSubmodules subs).map ls_line ∧
    status_output subs = (sortSubmodules subs).flatMap submodule_status_block ∧
    clone_list_output subs = (sortSubmodules subs).map clone_line :=
  ⟨List.sorted_insertionSort submoduleLE subs,
   List.perm_insertionSort submoduleLE subs, rfl, rfl, rfl⟩

/-- C8: when the spawned clone process reports failure, the tool exits with
that process's exit code, defaulting to 1 when no code is available. -/
theorem clone_exit_on_failure (g : String) (st : ExitStatus) (url : Option Url)
    (path : Option String) (disc : Option (Option (List Submodule)))
    (h : st.success = false) :
    clone_run (some g) (some st) url path disc = CloneResult.exited (st.code.getD 1) := by
  simp [clone_run, h]

/-- Witness for C8: a failed clone with no exit code available exits with 1. -/
theorem clone_exit_on_failure_witness :
    clone_run (some "git") (some ⟨false, none⟩) none none none = CloneResult.exited 1 :=
  clone_exit_on_failure "git" ⟨false, none⟩ none none none rfl

/-- C9: with no explicit target path and a successfully cloned non-GitHub URL,
the tool returns success with no submodule listing (and no error). -/
theorem clone_silent_non_github (g : String) (st : ExitStatus) (host : Option String)
    (upath : String) (disc : Option (Option (List Submodule)))
    (hs : st.success = true) (hh : host ≠ some "github.com") :
    clone_run (some g) (some st) (some ⟨host, upath⟩) none disc = CloneResult.ok [] := by
  simp [clone_run, hs, clone_repo_path, hh]

/-- Witness for C9 at a concrete gitlab-style host. -/
theorem clone_silent_non_github_witness :
    clone_run (some "git") (some ⟨true, some 0⟩) (some ⟨some "gitlab.com", "a/b"⟩)
      none none = CloneResult.ok [] :=
  clone_silent_non_github "git" ⟨true, some 0⟩ (some "gitlab.com") "a/b" none rfl (by decide)

/-- C10: once spawning and waiting succeed, init and rm discard the child's
exit status: every child status (failures included) yields `Ok(())`, i.e.
process exit code 0. -/
theorem init_rm_ignore_child_status (g : String) (st1 st2 st3 : ExitStatus) :
    init_run (some g) (some st1) (some st2) = RunResult.okZero ∧
    rm_run (some g) (some st3) = RunResult.okZero :=
  ⟨rfl, rfl⟩

end Gm
